import Mathlib

/-!
Shallow embedding of the Bayesian PAC inference engine of
`BPAC_OneSubject.ipynb` (repository BioSIP/BayesianPAC), together with
theorems settling the specification claims about it.

Conventions used throughout:

* Machine floats are modelled as exact rationals `ℚ` for the Bayesian
  pipeline (whose operations are `+ - * /` with explicit zero-denominator
  guards in the source), and as real numbers `ℝ` for the significance
  filter (whose standard deviation involves a square root).
* The significance-filtered PAC array `significant_pac_values_fragments`
  is a function `Fin n → Fin n → Fin F → ℚ`: first index the destination
  channel `i`, second the source channel `j` (as labelled by the source's
  heatmaps: rows = destinations, columns = sources), third the fragment.
* The fitted KDE of the source is an external oracle
  (`scipy.stats.gaussian_kde`); its point evaluation is an abstract
  parameter `kde : ℚ → ℚ`, and the only fact about it we model is its
  input validation (it refuses an empty data set).
* `np.divide(a, b, out=zeros, where=b != 0)` is embedded as
  `if b = 0 then 0 else a / b`, which is its exact semantics.
* The one unguarded division of the pipeline (`P_i = counts / total`)
  is embedded with IEEE semantics: `0.0 / 0.0` is NaN, modelled as
  `none : Option ℚ`.
-/

namespace BPAC

/-! ## Segmenter (Step 3 of the notebook)

Source:
`L_fLength = int(np.shape(npy_data)[1]/G_nFragments)` and
`ip_theta_fragments[:, i, :] = ip_theta[:, 0, i * L_fLength : (i + 1) * L_fLength]`.
There is no divisibility check and no exception path: the trailing
`T mod F` samples are simply never copied into any fragment. -/

/-- Fragment length `L_fLength`: `int(total_length / num_fragments)`,
i.e. truncating natural division. -/
def fLength (T F : ℕ) : ℕ := T / F

/-- The time index of sample `k` of fragment `i`:
fragment `i` holds samples `i * L .. (i+1) * L - 1` of the signal. -/
def fragSampleIndex (T F i k : ℕ) : ℕ := i * fLength T F + k

/-- Fragment `i` of a channel signal `x`, as the function sending the
within-fragment position `k` to the signal sample it copies. -/
def segmentedFragment (x : ℕ → ℚ) (T F i k : ℕ) : ℚ := x (fragSampleIndex T F i k)

/-! ## Significance filter (Step 4 of the notebook), over `ℝ`

Source:
```
L_alpha_Bonferroni = G_Alpha/G_nFragments
G_zThreshold_Bonferroni = norm.ppf(1 - L_alpha_Bonferroni)
...
surrogate_mean = np.mean(surrogate_pac_values_fragments[i, j, :, frag])
surrogate_std = np.std(surrogate_pac_values_fragments[i, j, :, frag])
if surrogate_std == 0:
    z_scores_fragments[i, j, frag] = 0  # Avoid division by zero
else:
    z_scores_fragments[i, j, frag] = (real_pac - surrogate_mean) / surrogate_std
if abs(z_scores_fragments[i, j, frag]) > G_zThreshold_Bonferroni:
    significant_pac_values_fragments[i, j, frag] = pac_values_fragments[i, j, frag]
```
(The array is zero-initialised, so a non-significant entry stays `0`.)
`norm.ppf` is an external scipy function; it is kept as an abstract
parameter `ppf`. -/

/-- Arithmetic mean `np.mean` of a list of samples. -/
noncomputable def sampleMean (xs : List ℝ) : ℝ := xs.sum / xs.length

/-- Population variance (the square of `np.std`, which uses `ddof=0`). -/
noncomputable def sampleVar (xs : List ℝ) : ℝ :=
  (xs.map (fun x => (x - sampleMean xs) ^ 2)).sum / xs.length

/-- Standard deviation `np.std`: square root of the population variance. -/
noncomputable def sampleStd (xs : List ℝ) : ℝ := Real.sqrt (sampleVar xs)

/-- The corrected significance level `L_alpha_Bonferroni = G_Alpha / G_nFragments`. -/
noncomputable def alphaBonferroni (alpha : ℝ) (F : ℕ) : ℝ := alpha / F

/-- The global threshold `G_zThreshold_Bonferroni = norm.ppf(1 - L_alpha_Bonferroni)`,
with the external inverse normal CDF `norm.ppf` abstracted as `ppf`. -/
noncomputable def zThreshold (ppf : ℝ → ℝ) (alpha : ℝ) (F : ℕ) : ℝ :=
  ppf (1 - alphaBonferroni alpha F)

/-- The z-score of one coupling observation: `(real_pac - surrogate_mean) /
surrogate_std`, substituted by `0` when the surrogate standard deviation is
zero (the source's `# Avoid division by zero` branch). -/
noncomputable def zScore (s : ℝ) (surr : List ℝ) : ℝ :=
  if sampleStd surr = 0 then 0 else (s - sampleMean surr) / sampleStd surr

/-- The stored entry of `significant_pac_values_fragments` for one
observation: the raw strength if `abs(z) > threshold`, else the array's
zero initialisation. -/
noncomputable def significantPacValue (t s : ℝ) (surr : List ℝ) : ℝ :=
  if |zScore s surr| > t then s else 0

/-- Whether one observation is declared significant at threshold `t`. -/
noncomputable def isSignificantObs (t : ℝ) (ob : ℝ × List ℝ) : Prop :=
  |zScore ob.1 ob.2| > t

open Classical in
/-- Number of observations of a batch declared significant at threshold `t`. -/
noncomputable def sigCount (t : ℝ) (obs : List (ℝ × List ℝ)) : ℕ :=
  obs.countP fun ob => decide (isSignificantObs t ob)

/-! ## Density estimator population (histogram / KDE cell of the notebook)

Source:
```
significant_pac_values_flat_fragments = significant_pac_values_fragments.flatten()
significant_pac_values_flat_fragments = significant_pac_values_flat_fragments[significant_pac_values_flat_fragments > 0] * 1e5
kde_fragments = gaussian_kde(np.abs(significant_pac_values_flat_fragments))
```
From here on the filtered array `significant_pac_values_fragments` is the
input, as a function `sig : Fin n → Fin n → Fin F → ℚ`. -/

variable {n F : ℕ}

/-- Row-major flattening (`numpy .flatten()`) of the
`(channels, channels, fragments)` array of significance-filtered PAC values. -/
def flatPacValues (sig : Fin n → Fin n → Fin F → ℚ) : List ℚ :=
  (((List.finRange n).product ((List.finRange n).product (List.finRange F))).map
    fun t => sig t.1 t.2.1 t.2.2)

/-- The pooled density population `significant_pac_values_flat_fragments`:
keep the strictly positive entries (`flat[flat > 0]`), scale by `1e5`. -/
def significantFlat (sig : Fin n → Fin n → Fin F → ℚ) : List ℚ :=
  ((flatPacValues sig).filter fun v => 0 < v).map fun v => v * 100000

/-- The pooled population as the claim words it: discard only the
zero-encoded non-significant entries, take the absolute value of each
retained value (with the same `1e5` scaling the code applies). -/
def significantFlatSpec (sig : Fin n → Fin n → Fin F → ℚ) : List ℚ :=
  ((flatPacValues sig).filter fun v => v ≠ 0).map fun v => |v| * 100000

/-- Failure condition of the external `scipy.stats.gaussian_kde` fit: the
library rejects an empty data set (the `InsufficientDataError` of the
specification), so fitting the density over an empty population fails. -/
def gaussianKdeFails (data : List ℚ) : Prop := data = []

/-! ## Prior `P(i)` (notebook cell `Computing P(i)`)

Source:
```
significant_pac_counts_by_destination = np.zeros(G_nChannels)
for frag in range(G_nFragments):
    for i in range(G_nChannels):
        for j in range(G_nChannels):
            if significant_pac_values_fragments[i, j, frag] > 0:
                significant_pac_counts_by_destination[i] += 1
total_significant_pacs = np.sum(significant_pac_counts_by_destination)
P_i = significant_pac_counts_by_destination / total_significant_pacs
```
The final division is *unguarded* float division. -/

/-- `significant_pac_counts_by_destination[i]`: the number of
`(source, fragment)` pairs whose stored strength toward destination `i` is
strictly positive. -/
def sigCountDest (sig : Fin n → Fin n → Fin F → ℚ) (i : Fin n) : ℕ :=
  ∑ f : Fin F, ∑ j : Fin n, if 0 < sig i j f then 1 else 0

/-- `total_significant_pacs`: total number of significant observations. -/
def totalSignificant (sig : Fin n → Fin n → Fin F → ℚ) : ℕ :=
  ∑ i : Fin n, sigCountDest sig i

/-- The prior vector `P_i` with IEEE float semantics for the unguarded
division: when `total_significant_pacs` is `0` every count is also `0`, so
NumPy computes `0.0 / 0.0 = NaN`, modelled as `none`. -/
def P_i_float (sig : Fin n → Fin n → Fin F → ℚ) (i : Fin n) : Option ℚ :=
  if (totalSignificant sig : ℚ) = 0 then none
  else some ((sigCountDest sig i : ℚ) / (totalSignificant sig : ℚ))

/-- The rational value of the prior entry `P_i[i]`; it agrees with
`P_i_float` whenever at least one significant observation exists, which is
the only situation in which the downstream cells are reached (see
`P_i_float_eq_val`). -/
def P_i_val (sig : Fin n → Fin n → Fin F → ℚ) (i : Fin n) : ℚ :=
  (sigCountDest sig i : ℚ) / (totalSignificant sig : ℚ)

/-! ## Likelihood `P(x|i)` (notebook cell `Computing P(x|i)`)

Source:
```
for frag / i / j:
    if significant_pac_values_fragments[i, j, frag] > 0:
        P_x_given_i[i, j, frag] = kde_fragments(significant_pac_values_fragments[i, j, frag] * 1e5).item()
    else:
        P_x_given_i[i, j, frag] = 0
for frag in range(G_nFragments):
    P_x_given_i_sum = np.sum(P_x_given_i[:, :, frag], axis=0)
    P_x_given_i[:, :, frag] = np.divide(P_x_given_i[:, :, frag], P_x_given_i_sum,
                                        out=np.zeros_like(...), where=P_x_given_i_sum != 0)
```
`np.sum(axis=0)` sums the *first* axis (destinations `i`), producing one
sum per source `j`; the broadcast division therefore divides entry
`[i, j]` by the sum of *column* `j` over destinations. -/

/-- Unnormalised likelihood: the KDE evaluated at the scaled strength for
significant entries, `0` otherwise. -/
def P_x_given_i_raw (sig : Fin n → Fin n → Fin F → ℚ) (kde : ℚ → ℚ)
    (i j : Fin n) (f : Fin F) : ℚ :=
  if 0 < sig i j f then kde (sig i j f * 100000) else 0

/-- `P_x_given_i_sum[j]`: `np.sum(M, axis=0)`, the sum of column `j` of a
`(destination, source)` matrix over the destination axis. -/
def colSum (M : Fin n → Fin n → ℚ) (j : Fin n) : ℚ := ∑ i : Fin n, M i j

/-- The per-fragment normalisation the code performs: entry `[i, j]`
divided by the destination-axis sum of its source column `j`, with the
`where=sum != 0` guard leaving zero-sum columns at zero. -/
def normalizeFragment (M : Fin n → Fin n → ℚ) (i j : Fin n) : ℚ :=
  if colSum M j = 0 then 0 else M i j / colSum M j

/-- Sum of row `i` of a `(destination, source)` matrix over the source
axis. -/
def rowSum (M : Fin n → Fin n → ℚ) (i : Fin n) : ℚ := ∑ j : Fin n, M i j

/-- The normalisation as the claim words it: each destination's row
(fixed destination `i`, varying source) divided by the sum of that row
over the source axis, zero-sum rows left at zero. -/
def rowNormalizeSpec (M : Fin n → Fin n → ℚ) (i j : Fin n) : ℚ :=
  if rowSum M i = 0 then 0 else M i j / rowSum M i

/-- The normalised likelihood array `P_x_given_i` after the in-place
division. -/
def P_x_given_i_norm (sig : Fin n → Fin n → Fin F → ℚ) (kde : ℚ → ℚ)
    (i j : Fin n) (f : Fin F) : ℚ :=
  normalizeFragment (fun a b => P_x_given_i_raw sig kde a b f) i j

/-! ## Evidence `P(x)` and posterior `P(i|x)` (last two computation cells)

Source:
```
P_x[:, frag] = np.dot(P_i, P_x_given_i[:, :, frag])

P_i_given_x_fragments[:, :, frag] = (P_x_given_i[:, :, frag].T * P_i).T
P_i_given_x_fragments[:, :, frag] = np.divide(P_i_given_x_fragments[:, :, frag], P_x[:, frag],
                                              out=np.zeros_like(...), where=P_x[:, frag] != 0)
P_i_given_x_significant_counts += (P_i_given_x_fragments[:, :, frag] > 0).astype(int)

P_i_given_x_mean = P_i_given_x_significant_counts / G_nFragments
```
-/

/-- Evidence `P_x[j, frag] = Σ_i P_i[i] * P_x_given_i[i, j, frag]`. -/
def P_x (sig : Fin n → Fin n → Fin F → ℚ) (kde : ℚ → ℚ)
    (f : Fin F) (j : Fin n) : ℚ :=
  ∑ i : Fin n, P_i_val sig i * P_x_given_i_norm sig kde i j f

/-- Per-fragment posterior `P_i_given_x_fragments[i, j, frag]`: Bayes'
numerator `P_x_given_i[i, j] * P_i[i]` divided by `P_x[j]`, with the
`where=P_x != 0` guard defining the quotient as `0` for zero evidence. -/
def P_i_given_x (sig : Fin n → Fin n → Fin F → ℚ) (kde : ℚ → ℚ)
    (f : Fin F) (i j : Fin n) : ℚ :=
  if P_x sig kde f j = 0 then 0
  else P_x_given_i_norm sig kde i j f * P_i_val sig i / P_x sig kde f j

/-- `P_i_given_x_significant_counts[i, j]`: in how many fragments the
posterior entry is strictly positive. -/
def P_i_given_x_counts (sig : Fin n → Fin n → Fin F → ℚ) (kde : ℚ → ℚ)
    (i j : Fin n) : ℕ :=
  ∑ f : Fin F, if 0 < P_i_given_x sig kde f i j then 1 else 0

/-- The reported aggregate posterior `P_i_given_x_mean`: the count of
significant fragments divided by the number of fragments. -/
def P_i_given_x_mean (sig : Fin n → Fin n → Fin F → ℚ) (kde : ℚ → ℚ)
    (i j : Fin n) : ℚ :=
  (P_i_given_x_counts sig kde i j : ℚ) / (F : ℚ)

/-- What the aggregate would be under mean-of-posteriors semantics (used
to contrast with the prevalence semantics the code implements). -/
def P_i_given_x_avg (sig : Fin n → Fin n → Fin F → ℚ) (kde : ℚ → ℚ)
    (i j : Fin n) : ℚ :=
  (∑ f : Fin F, P_i_given_x sig kde f i j) / (F : ℚ)

/-- Replacing a single observation of the filtered array by `0`, the
encoding the code gives every non-significant observation. -/
def zeroOut (sig : Fin n → Fin n → Fin F → ℚ) (a b : Fin n) (c : Fin F) :
    Fin n → Fin n → Fin F → ℚ :=
  fun i j f => if i = a ∧ j = b ∧ f = c then 0 else sig i j f

/-! ## Concrete instances used by the claim theorems and witnesses -/

/-- A filtered PAC array (2 channels, 1 fragment) whose single fragment,
combined with the constant KDE `kdeOne`, yields the unnormalised
likelihood matrix `[[1, 0], [1, 1]]`. -/
def sigC1 : Fin 2 → Fin 2 → Fin 1 → ℚ := fun i j _ => ![![1, 0], ![1, 1]] i j

/-- A filtered PAC array (2 channels, 2 fragments) in which both
destinations couple significantly with source `0` in fragment `0` only. -/
def sigC6 : Fin 2 → Fin 2 → Fin 2 → ℚ :=
  fun i j f => ![![![1, 0], ![0, 0]], ![![1, 0], ![0, 0]]] i j f

/-- A constant KDE evaluation oracle. -/
def kdeOne : ℚ → ℚ := fun _ => 1

/-- A 1-channel, 1-fragment filtered array with one significant
observation. -/
def sigOne : Fin 1 → Fin 1 → Fin 1 → ℚ := fun _ _ _ => 1

/-- A 1-channel, 1-fragment filtered array with no significant
observation. -/
def sigZero : Fin 1 → Fin 1 → Fin 1 → ℚ := fun _ _ _ => 0

/-- A 1-channel, 1-fragment filtered array whose only observation is
significant with a negative raw strength. -/
def sigNeg : Fin 1 → Fin 1 → Fin 1 → ℚ := fun _ _ _ => -1

/-! ## Claim C1: direction of the per-fragment likelihood normalisation -/

/-- C1, counterexample. The claim states that the likelihood matrix is
normalised by dividing each destination's row (fixed destination `i`,
varying source) by that row's sum over the source axis
(`rowNormalizeSpec`). On the raw likelihood matrix `[[1, 0], [1, 1]]`
produced by `sigC1` with the constant KDE, the code
(`np.sum(..., axis=0)` followed by the broadcast division, embedded as
`P_x_given_i_norm`) yields `1/2` at entry `(0, 0)` — it divides by the sum
of source column `0` over the destination axis — while the claimed row
normalisation yields `1`. -/
theorem C1_counterexample :
    P_x_given_i_norm sigC1 kdeOne 0 0 0 = 1 / 2 ∧
    rowNormalizeSpec (fun a b => P_x_given_i_raw sigC1 kdeOne a b 0) 0 0 = 1 ∧
    P_x_given_i_norm sigC1 kdeOne 0 0 0 ≠
      rowNormalizeSpec (fun a b => P_x_given_i_raw sigC1 kdeOne a b 0) 0 0 := by
  refine ⟨?_, ?_, ?_⟩ <;>
    simp only [P_x_given_i_norm, rowNormalizeSpec, normalizeFragment, colSum, rowSum,
      P_x_given_i_raw, sigC1, kdeOne, Fin.sum_univ_two, Matrix.cons_val_zero,
      Matrix.cons_val_one, Matrix.head_cons] <;>
    norm_num

/-- C1, amended. In the per-fragment likelihood stage, for every fragment
the likelihood matrix is normalised per *source column*: each source `x`'s
column (fixed source, varying destination `i`) is divided by the sum of
that column over the destination axis, and any column whose sum is zero is
left as all zeros rather than divided; consequently each column with a
nonzero sum sums to one over destinations. -/
theorem C1_amended (sig : Fin n → Fin n → Fin F → ℚ) (kde : ℚ → ℚ)
    (f : Fin F) (j : Fin n) :
    (colSum (fun a b => P_x_given_i_raw sig kde a b f) j = 0 →
      ∀ i, P_x_given_i_norm sig kde i j f = 0) ∧
    (colSum (fun a b => P_x_given_i_raw sig kde a b f) j ≠ 0 →
      (∀ i, P_x_given_i_norm sig kde i j f =
        P_x_given_i_raw sig kde i j f /
          colSum (fun a b => P_x_given_i_raw sig kde a b f) j) ∧
      ∑ i : Fin n, P_x_given_i_norm sig kde i j f = 1) := by
  constructor
  · intro h i
    simp only [P_x_given_i_norm, normalizeFragment, if_pos h]
  · intro h
    constructor
    · intro i
      simp only [P_x_given_i_norm, normalizeFragment, if_neg h]
    · simp only [P_x_given_i_norm, normalizeFragment, if_neg h]
      rw [← Finset.sum_div]
      exact div_self h

/-- C1, witness for the amended theorem at a concrete input: for `sigOne`
with the constant KDE, the single column has nonzero sum, and after the
code's normalisation it sums to one over destinations. -/
theorem C1_amended_witness :
    colSum (fun a b => P_x_given_i_raw sigOne kdeOne a b 0) 0 ≠ 0 ∧
    ∑ i : Fin 1, P_x_given_i_norm sigOne kdeOne i 0 0 = 1 := by
  have h : colSum (fun a b => P_x_given_i_raw sigOne kdeOne a b 0) (0 : Fin 1) ≠ 0 := by
    simp only [colSum, P_x_given_i_raw, sigOne, kdeOne, Fin.sum_univ_one]
    norm_num
  exact ⟨h, ((C1_amended sigOne kdeOne 0 0).2 h).2⟩

/-! ## Claim C2: the prior vector and its degenerate case -/

/-- C2, counterexample. On a filtered array with no significant
observation anywhere, `total_significant_pacs` is `0` and the unguarded
NumPy division `P_i = counts / total` computes `0.0 / 0.0`, i.e. NaN
(modelled as `none`) in every entry — not zero as the claim states. -/
theorem C2_counterexample :
    totalSignificant sigZero = 0 ∧ P_i_float sigZero 0 = none := by
  constructor <;>
    simp [totalSignificant, sigCountDest, P_i_float, sigZero, Fin.sum_univ_one]

/-- C2, amended. Whenever at least one significant observation exists, the
prior vector is well defined with entry `i` equal to the count of
significant observations with destination `i` divided by the total
significant count, and it sums to 1; when no significant observation
exists, every prior entry is the IEEE indeterminate `0.0 / 0.0` (NaN,
modelled as `none`) rather than zero — though a full run never reaches
this state, since fitting the KDE over the then-empty population fails
first. -/
theorem C2_amended (sig : Fin n → Fin n → Fin F → ℚ) :
    (0 < totalSignificant sig →
      (∀ i, P_i_float sig i = some (P_i_val sig i)) ∧
      ∑ i : Fin n, (P_i_float sig i).getD 0 = 1) ∧
    (totalSignificant sig = 0 → ∀ i, P_i_float sig i = none) := by
  constructor
  · intro h
    have hne : ((totalSignificant sig : ℚ)) ≠ 0 := by
      exact_mod_cast Nat.pos_iff_ne_zero.mp h
    have hsome : ∀ i, P_i_float sig i = some (P_i_val sig i) := by
      intro i
      simp only [P_i_float, P_i_val, if_neg hne]
    refine ⟨hsome, ?_⟩
    have : ∀ i : Fin n, (P_i_float sig i).getD 0 = P_i_val sig i := by
      intro i; rw [hsome i]; rfl
    calc ∑ i : Fin n, (P_i_float sig i).getD 0
        = ∑ i : Fin n, (sigCountDest sig i : ℚ) / (totalSignificant sig : ℚ) := by
          exact Finset.sum_congr rfl fun i _ => this i
      _ = (∑ i : Fin n, (sigCountDest sig i : ℚ)) / (totalSignificant sig : ℚ) :=
          (Finset.sum_div _ _ _).symm
      _ = ((totalSignificant sig : ℚ)) / (totalSignificant sig : ℚ) := by
          rw [← Nat.cast_sum]; rfl
      _ = 1 := div_self hne
  · intro h i
    simp [P_i_float, h]

/-- C2, witness for the amended theorem at a concrete input: `sigOne` has
a significant observation and its prior vector sums to 1. -/
theorem C2_amended_witness :
    0 < totalSignificant sigOne ∧
    ∑ i : Fin 1, (P_i_float sigOne i).getD 0 = 1 := by
  have h : 0 < totalSignificant sigOne := by
    simp only [totalSignificant, sigCountDest, sigOne, Fin.sum_univ_one]
    norm_num
  exact ⟨h, ((C2_amended sigOne).1 h).2⟩

/-! ## Claim C3: the segmenter and non-divisible configurations -/

/-- C3, counterexample. For total length `10` and fragment count `3`
(`10 % 3 ≠ 0`), the code raises nothing: `L_fLength = int(10/3) = 3`, the
three fragments are produced and cover samples `0..8` only, so
`F * L ≠ T` and sample `9` belongs to no fragment — silent truncation, not
a `ConfigurationError`. -/
theorem C3_counterexample :
    10 % 3 ≠ 0 ∧ fLength 10 3 = 3 ∧ 3 * fLength 10 3 ≠ 10 ∧
    ∀ i < 3, ∀ k < fLength 10 3, fragSampleIndex 10 3 i k ≠ 9 := by
  decide

/-- C3, amended. The Segmenter performs no divisibility check and cannot
fail: it always computes `L = ⌊T / F⌋` and produces `F` fragments of
identical length `L` in temporal order, whose samples are non-overlapping
(the map `(i, k) ↦ i·L + k` is injective) and cover exactly the initial
`F·L ≤ T` samples; when `T % F == 0` this makes them exhaustive with
`F · L == T`, and otherwise the trailing `T mod F` samples are silently
dropped. -/
theorem C3_amended (T F : ℕ) (_hF : 0 < F) :
    F * fLength T F ≤ T ∧
    (T % F = 0 → F * fLength T F = T) ∧
    (∀ i k, i < F → k < fLength T F → fragSampleIndex T F i k < F * fLength T F) ∧
    (∀ i₁ k₁ i₂ k₂, i₁ < F → k₁ < fLength T F → i₂ < F → k₂ < fLength T F →
      fragSampleIndex T F i₁ k₁ = fragSampleIndex T F i₂ k₂ → i₁ = i₂ ∧ k₁ = k₂) ∧
    (∀ t, t < F * fLength T F →
      ∃ i, i < F ∧ ∃ k, k < fLength T F ∧ fragSampleIndex T F i k = t) := by
  refine ⟨?_, ?_, ?_, ?_, ?_⟩
  · rw [mul_comm]; exact Nat.div_mul_le_self T F
  · intro h
    rw [mul_comm]; exact Nat.div_mul_cancel (Nat.dvd_of_mod_eq_zero h)
  · intro i k hi hk
    calc fragSampleIndex T F i k < i * fLength T F + fLength T F :=
          Nat.add_lt_add_left hk _
      _ = (i + 1) * fLength T F := by ring
      _ ≤ F * fLength T F := Nat.mul_le_mul_right _ (by omega)
  · intro i₁ k₁ i₂ k₂ hi₁ hk₁ hi₂ hk₂ heq
    have hL : 0 < fLength T F := by omega
    have hdiv : ∀ i k, k < fLength T F →
        (i * fLength T F + k) / fLength T F = i := by
      intro i k hk
      rw [mul_comm, Nat.mul_add_div hL, Nat.div_eq_of_lt hk, Nat.add_zero]
    have hi : i₁ = i₂ := by
      have h₁ := hdiv i₁ k₁ hk₁
      have h₂ := hdiv i₂ k₂ hk₂
      rw [← h₁, ← h₂]
      unfold fragSampleIndex at heq
      rw [heq]
    refine ⟨hi, ?_⟩
    unfold fragSampleIndex at heq
    rw [hi] at heq
    omega
  · intro t ht
    have hL : 0 < fLength T F := by
      by_contra h
      have : fLength T F = 0 := by omega
      rw [this, Nat.mul_zero] at ht
      omega
    refine ⟨t / fLength T F, ?_, t % fLength T F, Nat.mod_lt _ hL, ?_⟩
    · rw [Nat.div_lt_iff_lt_mul hL]; exact ht
    · unfold fragSampleIndex
      rw [mul_comm]
      exact Nat.div_add_mod t (fLength T F)

/-- C3, witness for the amended theorem at a concrete valid configuration:
`T = 10`, `F = 5` gives `5 * L = 10` exactly. -/
theorem C3_amended_witness :
    0 < 5 ∧ 10 % 5 = 0 ∧ 5 * fLength 10 5 = 10 :=
  ⟨by decide, by decide, (C3_amended 10 5 (by decide)).2.1 (by decide)⟩

/-! ## Claim C4: the significance decision -/

/-- C4, confirmed. For every coupling observation (strength `s`, nonempty
surrogate batch `surr`): the z-score is `(s - mean(surr)) / std(surr)`,
substituted by `0` when the surrogate standard deviation is zero; the
global threshold is `ppf(1 - alpha / F)` (Bonferroni-corrected level fed to
the external inverse normal CDF `ppf`, computed once per run); the
observation is significant iff `|z|` exceeds that threshold; and the stored
value retains the original strength exactly for significant observations,
recording all others as zero. -/
theorem C4_spec (ppf : ℝ → ℝ) (alpha : ℝ) (Fn : ℕ) (s : ℝ) (surr : List ℝ)
    (_hsurr : surr ≠ []) :
    (sampleStd surr = 0 → zScore s surr = 0) ∧
    (sampleStd surr ≠ 0 →
      zScore s surr = (s - sampleMean surr) / sampleStd surr) ∧
    zThreshold ppf alpha Fn = ppf (1 - alpha / Fn) ∧
    (|zScore s surr| > zThreshold ppf alpha Fn →
      significantPacValue (zThreshold ppf alpha Fn) s surr = s) ∧
    (¬ |zScore s surr| > zThreshold ppf alpha Fn →
      significantPacValue (zThreshold ppf alpha Fn) s surr = 0) := by
  refine ⟨?_, ?_, rfl, ?_, ?_⟩
  · intro h
    simp only [zScore, if_pos h]
  · intro h
    simp only [zScore, if_neg h]
  · intro h
    simp only [significantPacValue, if_pos h]
  · intro h
    simp only [significantPacValue, if_neg h]

/-- C4, witness at a concrete observation: strength `5`, surrogates
`[0, 2]` (mean `1`, standard deviation `1`), identity `ppf`. -/
theorem C4_spec_witness :
    ([0, 2] : List ℝ) ≠ [] ∧
    (sampleStd [0, 2] ≠ 0 →
      zScore 5 [0, 2] = (5 - sampleMean [0, 2]) / sampleStd [0, 2]) := by
  have hsurr : ([0, 2] : List ℝ) ≠ [] := by simp
  exact ⟨hsurr, (C4_spec (fun x => x) (1 / 20) 25 5 [0, 2] hsurr).2.1⟩

/-! ## Claim C5: the aggregate posterior matrix is a matrix of
probabilities, degenerate evidence handled by zero-substitution -/

/-- C5, confirmed. For valid inputs (a positive number of fragments and at
least one significant observation, without which the run aborts at the KDE
fit before any posterior exists), every entry of the final aggregate
posterior matrix `P_i_given_x_mean` lies in `[0, 1]`; and for any fragment
and any source `j` with zero evidence `P_x = 0`, the per-fragment
posterior of every destination for that source is zero (the
`where=P_x != 0` guard) rather than undefined. The statement is in exact
rational arithmetic, total under these hypotheses, which is the
formalisation of "no NaN or infinite value appears". -/
theorem C5_spec (sig : Fin n → Fin n → Fin F → ℚ) (kde : ℚ → ℚ)
    (hF : 0 < F) (_htot : 0 < totalSignificant sig) :
    (∀ i j, 0 ≤ P_i_given_x_mean sig kde i j ∧ P_i_given_x_mean sig kde i j ≤ 1) ∧
    (∀ f j, P_x sig kde f j = 0 → ∀ i, P_i_given_x sig kde f i j = 0) := by
  constructor
  · intro i j
    constructor
    · exact div_nonneg (Nat.cast_nonneg _) (Nat.cast_nonneg _)
    · have hle : P_i_given_x_counts sig kde i j ≤ F := by
        calc P_i_given_x_counts sig kde i j
            ≤ ∑ _f : Fin F, 1 := Finset.sum_le_sum fun f _ => by
              by_cases h : 0 < P_i_given_x sig kde f i j <;> simp [h]
          _ = F := by simp
      unfold P_i_given_x_mean
      rw [div_le_one (by exact_mod_cast hF : (0 : ℚ) < (F : ℚ))]
      exact_mod_cast hle
  · intro f j h i
    simp only [P_i_given_x, if_pos h]

/-- C5, witness at the concrete valid input `sigOne` with the constant
KDE: one fragment, one significant observation, aggregate entry within
`[0, 1]`. -/
theorem C5_spec_witness :
    0 < 1 ∧ 0 < totalSignificant sigOne ∧
    0 ≤ P_i_given_x_mean sigOne kdeOne 0 0 ∧ P_i_given_x_mean sigOne kdeOne 0 0 ≤ 1 := by
  have htot : 0 < totalSignificant sigOne := by
    simp only [totalSignificant, sigCountDest, sigOne, Fin.sum_univ_one]
    norm_num
  exact ⟨Nat.one_pos, htot, (C5_spec sigOne kdeOne Nat.one_pos htot).1 0 0⟩

/-! ## Claim C6: the aggregate is prevalence of significance, not a mean
of probabilities -/

/-- Entries of the unnormalised likelihood are non-negative when the KDE
evaluates non-negatively. -/
lemma P_x_given_i_raw_nonneg (sig : Fin n → Fin n → Fin F → ℚ) (kde : ℚ → ℚ)
    (hkde : ∀ q, 0 ≤ kde q) (i j : Fin n) (f : Fin F) :
    0 ≤ P_x_given_i_raw sig kde i j f := by
  unfold P_x_given_i_raw
  by_cases h : 0 < sig i j f
  · rw [if_pos h]; exact hkde _
  · rw [if_neg h]

/-- Entries of the normalised likelihood are non-negative when the KDE
evaluates non-negatively. -/
lemma P_x_given_i_norm_nonneg (sig : Fin n → Fin n → Fin F → ℚ) (kde : ℚ → ℚ)
    (hkde : ∀ q, 0 ≤ kde q) (i j : Fin n) (f : Fin F) :
    0 ≤ P_x_given_i_norm sig kde i j f := by
  unfold P_x_given_i_norm normalizeFragment
  by_cases h : colSum (fun a b => P_x_given_i_raw sig kde a b f) j = 0
  · rw [if_pos h]
  · rw [if_neg h]
    refine div_nonneg (P_x_given_i_raw_nonneg sig kde hkde i j f) ?_
    refine Finset.sum_nonneg fun a _ => P_x_given_i_raw_nonneg sig kde hkde a j f

/-- Entries of the prior vector are non-negative. -/
lemma P_i_val_nonneg (sig : Fin n → Fin n → Fin F → ℚ) (i : Fin n) :
    0 ≤ P_i_val sig i :=
  div_nonneg (Nat.cast_nonneg _) (Nat.cast_nonneg _)

/-- The evidence is non-negative when the KDE evaluates non-negatively. -/
lemma P_x_nonneg (sig : Fin n → Fin n → Fin F → ℚ) (kde : ℚ → ℚ)
    (hkde : ∀ q, 0 ≤ kde q) (f : Fin F) (j : Fin n) :
    0 ≤ P_x sig kde f j :=
  Finset.sum_nonneg fun i _ =>
    mul_nonneg (P_i_val_nonneg sig i) (P_x_given_i_norm_nonneg sig kde hkde i j f)

/-- Per-fragment posterior entries are non-negative when the KDE evaluates
non-negatively. -/
lemma P_i_given_x_nonneg (sig : Fin n → Fin n → Fin F → ℚ) (kde : ℚ → ℚ)
    (hkde : ∀ q, 0 ≤ kde q) (f : Fin F) (i j : Fin n) :
    0 ≤ P_i_given_x sig kde f i j := by
  unfold P_i_given_x
  by_cases h : P_x sig kde f j = 0
  · rw [if_pos h]
  · rw [if_neg h]
    exact div_nonneg
      (mul_nonneg (P_x_given_i_norm_nonneg sig kde hkde i j f) (P_i_val_nonneg sig i))
      (P_x_nonneg sig kde hkde f j)

/-- C6, confirmed. Under a non-negative KDE oracle, the reported aggregate
posterior for each `(destination i, source j)` pair equals the number of
fragments whose per-fragment posterior entry is nonzero, divided by the
total fragment count — a prevalence-of-significance measure. Moreover this
is not the mean of the per-fragment posterior values: on the concrete
input `sigC6` the prevalence is `1/2` while the mean of posteriors is
`1/4`. -/
theorem C6_spec (sig : Fin n → Fin n → Fin F → ℚ) (kde : ℚ → ℚ)
    (hkde : ∀ q, 0 ≤ kde q) :
    (∀ i j, P_i_given_x_mean sig kde i j =
      ((Finset.univ.filter fun f => P_i_given_x sig kde f i j ≠ 0).card : ℚ) / (F : ℚ)) ∧
    P_i_given_x_mean sigC6 kdeOne 0 0 ≠ P_i_given_x_avg sigC6 kdeOne 0 0 := by
  constructor
  · intro i j
    unfold P_i_given_x_mean P_i_given_x_counts
    congr 2
    have hcard : (∑ f : Fin F, if 0 < P_i_given_x sig kde f i j then 1 else 0) =
        (Finset.univ.filter fun f => 0 < P_i_given_x sig kde f i j).card := by
      rw [Finset.sum_boole]; rfl
    rw [hcard]
    congr 1
    refine Finset.filter_congr fun f _ => ?_
    have hnn := P_i_given_x_nonneg sig kde hkde f i j
    constructor
    · intro h; exact ne_of_gt h
    · intro h; exact lt_of_le_of_ne hnn (Ne.symm h)
  · have h₁ : P_i_given_x_mean sigC6 kdeOne 0 0 = 1 / 2 := by
      simp only [P_i_given_x_mean, P_i_given_x_counts, P_i_given_x, P_x,
        P_x_given_i_norm, normalizeFragment, colSum, P_x_given_i_raw, P_i_val,
        sigCountDest, totalSignificant, sigC6, kdeOne, Fin.sum_univ_two,
        Matrix.cons_val_zero, Matrix.cons_val_one, Matrix.head_cons]
      norm_num
    have h₂ : P_i_given_x_avg sigC6 kdeOne 0 0 = 1 / 4 := by
      simp only [P_i_given_x_avg, P_i_given_x, P_x, P_x_given_i_norm,
        normalizeFragment, colSum, P_x_given_i_raw, P_i_val, sigCountDest,
        totalSignificant, sigC6, kdeOne, Fin.sum_univ_two, Matrix.cons_val_zero,
        Matrix.cons_val_one, Matrix.head_cons]
      norm_num
    rw [h₁, h₂]
    norm_num

/-- C6, witness at a concrete input: the constant KDE is non-negative, and
on `sigC6` the aggregate equals the fraction of fragments with nonzero
posterior while differing from the mean of posteriors. -/
theorem C6_spec_witness :
    (∀ q : ℚ, 0 ≤ kdeOne q) ∧
    P_i_given_x_mean sigC6 kdeOne 0 0 ≠ P_i_given_x_avg sigC6 kdeOne 0 0 := by
  have hkde : ∀ q : ℚ, 0 ≤ kdeOne q := fun q => by norm_num [kdeOne]
  exact ⟨hkde, (C6_spec sigC6 kdeOne hkde).2⟩

/-! ## Claim C7: Bayes consistency of the per-fragment posterior -/

/-- C7, confirmed. For every fragment and every source `j` whose evidence
`P_x = Σ_i P_i · P(x|i)` is strictly positive, the per-fragment posterior
column sums to one over destinations. -/
theorem C7_spec (sig : Fin n → Fin n → Fin F → ℚ) (kde : ℚ → ℚ)
    (f : Fin F) (j : Fin n) (h : 0 < P_x sig kde f j) :
    ∑ i : Fin n, P_i_given_x sig kde f i j = 1 := by
  have hne : P_x sig kde f j ≠ 0 := ne_of_gt h
  simp only [P_i_given_x, if_neg hne]
  rw [← Finset.sum_div]
  have hnum : ∑ i : Fin n, P_x_given_i_norm sig kde i j f * P_i_val sig i =
      P_x sig kde f j := by
    unfold P_x
    exact Finset.sum_congr rfl fun i _ => mul_comm _ _
  rw [hnum, div_self hne]

/-- C7, witness at the concrete input `sigOne` with the constant KDE:
the evidence for source `0` in the single fragment is positive and the
posterior column sums to one. -/
theorem C7_spec_witness :
    0 < P_x sigOne kdeOne 0 0 ∧
    ∑ i : Fin 1, P_i_given_x sigOne kdeOne 0 i 0 = 1 := by
  have h : 0 < P_x sigOne kdeOne 0 0 := by
    simp only [P_x, P_x_given_i_norm, normalizeFragment, colSum, P_x_given_i_raw,
      P_i_val, sigCountDest, totalSignificant, sigOne, kdeOne, Fin.sum_univ_one]
    norm_num
  exact ⟨h, C7_spec sigOne kdeOne 0 0 h⟩

/-! ## Claim C8: the pooled density population -/

/-- C8, counterexample. The claim states that the density population keeps
every significant (nonzero-encoded) strength and takes its absolute value,
failing only when zero significant observations exist. On `sigNeg`, whose
single observation is significant with raw strength `-1`, the claimed
population (`significantFlatSpec`) is the nonempty `[100000]`, but the
code's filter `flat[flat > 0]` discards the negative value: the actual
population is empty and the `gaussian_kde` call fails even though a
significant observation exists. -/
theorem C8_counterexample :
    significantFlatSpec sigNeg = [100000] ∧
    significantFlat sigNeg = [] ∧
    gaussianKdeFails ((significantFlat sigNeg).map fun v => |v|) := by
  have h₂ : significantFlat sigNeg = [] := by
    norm_num [significantFlat, flatPacValues, sigNeg, List.finRange, List.product,
      List.filter, List.range, List.map]
  refine ⟨?_, h₂, ?_⟩
  · norm_num [significantFlatSpec, flatPacValues, sigNeg, List.finRange, List.product,
      List.filter, List.range, List.map]
  · rw [h₂]
    rfl

/-- C8, amended. The density estimator pools every entry of the filtered
array and retains only the strictly positive ones — discarding the
zero-encoded non-significant entries and likewise any negative significant
strengths — scales them by `1e5`, and fits a single KDE to their absolute
values (taking the absolute value is a no-op on the retained positives);
the fit fails when this retained population is empty. -/
theorem C8_amended (sig : Fin n → Fin n → Fin F → ℚ) :
    significantFlat sig =
      ((flatPacValues sig).filter fun v => 0 < v).map (fun v => v * 100000) ∧
    ((significantFlat sig).map fun v => |v|) = significantFlat sig ∧
    (significantFlat sig = [] →
      gaussianKdeFails ((significantFlat sig).map fun v => |v|)) := by
  refine ⟨rfl, ?_, ?_⟩
  · have habs : ∀ v ∈ significantFlat sig, |v| = v := by
      intro v hv
      unfold significantFlat at hv
      obtain ⟨w, hw, rfl⟩ := List.mem_map.mp hv
      have hwpos : 0 < w := of_decide_eq_true (List.mem_filter.mp hw).2
      exact abs_of_pos (by positivity)
    calc (significantFlat sig).map (fun v => |v|)
        = (significantFlat sig).map id := List.map_congr_left habs
      _ = significantFlat sig := List.map_id _
  · intro h
    rw [h]
    rfl

/-- C8, witness for the amended theorem at a concrete input: on `sigZero`
(no significant observation) the population is empty and the KDE fit
fails. -/
theorem C8_amended_witness :
    significantFlat sigZero = [] ∧
    gaussianKdeFails ((significantFlat sigZero).map fun v => |v|) := by
  have h : significantFlat sigZero = [] := by
    norm_num [significantFlat, flatPacValues, sigZero, List.finRange, List.product,
      List.filter, List.range, List.map]
  exact ⟨h, (C8_amended sigZero).2.2 h⟩

/-! ## Claim C9: monotonicity of the significant count in the threshold -/

/-- C9, confirmed. For a fixed batch of coupling observations (strength
and surrogates each), and thresholds `t₁ ≤ t₂`: every observation
significant at `t₂` is significant at `t₁`, and hence the count of
significant observations at `t₂` is at most the count at `t₁` — raising
the threshold can only decrease the significant count. -/
theorem C9_spec (obs : List (ℝ × List ℝ)) (t₁ t₂ : ℝ) (h : t₁ ≤ t₂) :
    (∀ ob ∈ obs, isSignificantObs t₂ ob → isSignificantObs t₁ ob) ∧
    sigCount t₂ obs ≤ sigCount t₁ obs := by
  have hmono : ∀ ob : ℝ × List ℝ, isSignificantObs t₂ ob → isSignificantObs t₁ ob :=
    fun ob hsig => lt_of_le_of_lt h hsig
  refine ⟨fun ob _ => hmono ob, ?_⟩
  unfold sigCount
  classical
  refine List.countP_mono_left fun ob _ hdec => ?_
  exact decide_eq_true (hmono ob (of_decide_eq_true hdec))

/-- C9, witness at a concrete input: one observation, thresholds `1 ≤ 2`. -/
theorem C9_spec_witness :
    (1 : ℝ) ≤ 2 ∧
    sigCount 2 [((5 : ℝ), [0, 2])] ≤ sigCount 1 [((5 : ℝ), [0, 2])] :=
  ⟨by norm_num, (C9_spec [((5 : ℝ), [0, 2])] 1 2 (by norm_num)).2⟩

/-! ## Claim C10: every downstream stage tests significance as strictly
positive stored strength -/

/-- Pointwise, zeroing out a non-positive entry leaves the unnormalised
likelihood array unchanged. -/
lemma raw_zeroOut_eq (sig : Fin n → Fin n → Fin F → ℚ) (kde : ℚ → ℚ)
    (a b : Fin n) (c : Fin F) (h : sig a b c ≤ 0) :
    P_x_given_i_raw (zeroOut sig a b c) kde = P_x_given_i_raw sig kde := by
  funext i j f
  unfold P_x_given_i_raw zeroOut
  by_cases hp : i = a ∧ j = b ∧ f = c
  · obtain ⟨h1, h2, h3⟩ := hp
    rw [if_pos (And.intro h1 (And.intro h2 h3)), h1, h2, h3,
      if_neg (lt_irrefl (0 : ℚ)), if_neg (not_lt.mpr h)]
  · simp only [if_neg hp]

/-- Zeroing out a non-positive entry leaves each destination's significant
count unchanged. -/
lemma sigCountDest_zeroOut_eq (sig : Fin n → Fin n → Fin F → ℚ)
    (a b : Fin n) (c : Fin F) (h : sig a b c ≤ 0) :
    sigCountDest (zeroOut sig a b c) = sigCountDest sig := by
  funext i
  unfold sigCountDest
  refine Finset.sum_congr rfl fun f _ => Finset.sum_congr rfl fun j _ => ?_
  unfold zeroOut
  by_cases hp : i = a ∧ j = b ∧ f = c
  · obtain ⟨h1, h2, h3⟩ := hp
    rw [if_pos (And.intro h1 (And.intro h2 h3)), h1, h2, h3,
      if_neg (lt_irrefl (0 : ℚ)), if_neg (not_lt.mpr h)]
  · simp only [if_neg hp]

/-- Two pointwise-related element maps produce the same
positively-filtered list: used for the flattened density population. -/
lemma filter_pos_map_eq {α : Type} (l : List α) (g g' : α → ℚ)
    (h : ∀ x ∈ l, g x = g' x ∨ (g x ≤ 0 ∧ g' x ≤ 0)) :
    (l.map g).filter (fun v => 0 < v) = (l.map g').filter (fun v => 0 < v) := by
  induction l with
  | nil => rfl
  | cons x xs ih =>
    have hx := h x (List.mem_cons_self x xs)
    have hxs := ih fun y hy => h y (List.mem_cons_of_mem x hy)
    simp only [List.map_cons, List.filter_cons]
    rcases hx with heq | ⟨h₁, h₂⟩
    · rw [heq, hxs]
    · rw [if_neg (by simpa using not_lt.mpr h₁), if_neg (by simpa using not_lt.mpr h₂)]
      exact hxs

/-- C10, confirmed. A coupling observation whose stored strength is not
strictly positive (zero or negative, regardless of how large its `|z|`
was) behaves in every downstream stage exactly like a zero-encoded
non-significant observation: it receives zero unnormalised likelihood, and
replacing it by `0` changes neither the pooled density population, nor any
destination's prior count, nor the likelihood array, nor any entry of the
final prevalence aggregate. -/
theorem C10_spec (sig : Fin n → Fin n → Fin F → ℚ) (kde : ℚ → ℚ)
    (a b : Fin n) (c : Fin F) (h : sig a b c ≤ 0) :
    P_x_given_i_raw sig kde a b c = 0 ∧
    significantFlat (zeroOut sig a b c) = significantFlat sig ∧
    sigCountDest (zeroOut sig a b c) = sigCountDest sig ∧
    P_x_given_i_raw (zeroOut sig a b c) kde = P_x_given_i_raw sig kde ∧
    (∀ i j, P_i_given_x_mean (zeroOut sig a b c) kde i j =
      P_i_given_x_mean sig kde i j) := by
  have hraw := raw_zeroOut_eq sig kde a b c h
  have hcnt := sigCountDest_zeroOut_eq sig a b c h
  have hval : P_i_val (zeroOut sig a b c) = P_i_val sig := by
    funext i
    unfold P_i_val totalSignificant
    rw [hcnt]
  have hnorm : P_x_given_i_norm (zeroOut sig a b c) kde = P_x_given_i_norm sig kde := by
    funext i j f
    unfold P_x_given_i_norm
    rw [hraw]
  have hPx : P_x (zeroOut sig a b c) kde = P_x sig kde := by
    funext f j
    unfold P_x
    rw [hval, hnorm]
  have hpost : P_i_given_x (zeroOut sig a b c) kde = P_i_given_x sig kde := by
    funext f i j
    unfold P_i_given_x
    rw [hval, hnorm, hPx]
  refine ⟨?_, ?_, hcnt, hraw, ?_⟩
  · unfold P_x_given_i_raw
    rw [if_neg (not_lt.mpr h)]
  · unfold significantFlat flatPacValues
    congr 1
    refine filter_pos_map_eq _ _ _ fun x _ => ?_
    unfold zeroOut
    by_cases hp : x.1 = a ∧ x.2.1 = b ∧ x.2.2 = c
    · right
      obtain ⟨h1, h2, h3⟩ := hp
      rw [if_pos ⟨h1, h2, h3⟩, h1, h2, h3]
      exact ⟨le_refl 0, h⟩
    · left
      rw [if_neg hp]
  · intro i j
    unfold P_i_given_x_mean P_i_given_x_counts
    rw [hpost]

/-- C10, witness at a concrete input: on `sigNeg`, whose only observation
stores the negative strength `-1`, zeroing that entry leaves the pooled
density population unchanged. -/
theorem C10_spec_witness :
    sigNeg 0 0 0 ≤ 0 ∧
    significantFlat (zeroOut sigNeg 0 0 0) = significantFlat sigNeg := by
  have h : sigNeg 0 0 0 ≤ 0 := by norm_num [sigNeg]
  exact ⟨h, (C10_spec sigNeg kdeOne 0 0 0 h).2.1⟩

end BPAC
